import Mathlib

/-!
Verification of the pseudojava core: the priority-ordered Higgs field point
registry (src/higgs_king.h) and the deferred reclamation tick stack
(src/free_all.h), shallowly embedded over exact rational arithmetic.

Modelling conventions:
* A C `double` is modelled as an exact rational `ℚ`.  Where the code can
  observe a non-finite double (NaN or ±Inf), the value is modelled as
  `Option ℚ` with `none` standing for any non-finite value.
* C pointers are modelled as natural numbers, `0` standing for `NULL`.
* The implementations of `vector_magnitude`, `push_electron_free_literal`
  and `compute_multivar_delta_topology` are declared in
  src/fixed_memory_systems.h but their definitions are not part of the
  repository; they are modelled from the spec (§4.1, §4.2) and marked
  `Modelled from the spec:` below.
* Diagnostics written to stderr are modelled as an `Option` error value
  returned next to the new state; the error constructors follow the
  spec's error taxonomy (§7).
-/

namespace PseudoJava

/-! ## Constants (src/free_all.h lines 18-20, src/higgs_king.h lines 25-30,
src/fixed_memory_systems.h lines 104-108) -/

/-- `MAX_TICK_STACK` (src/free_all.h line 18). -/
def MAX_TICK_STACK : ℕ := 1024

/-- `FUZZY_CONFIDENCE_THRESHOLD` (src/free_all.h line 19, src/higgs_king.h line 29). -/
def FUZZY_CONFIDENCE_THRESHOLD : ℚ := 7/10

/-- `MEMORY_PRESSURE_THRESHOLD` (src/free_all.h line 20). -/
def MEMORY_PRESSURE_THRESHOLD : ℚ := 9/10

/-- `HIGGS_FIELD_SIZE` (src/higgs_king.h line 26). -/
def HIGGS_FIELD_SIZE : ℕ := 100

/-- `HIGGS_ENERGY_FACTOR = 0.618033988749895` (src/higgs_king.h line 27). -/
def HIGGS_ENERGY_FACTOR : ℚ := 618033988749895 / 1000000000000000

/-- `HIGGS_COUPLING_BASE = 0.125` (src/higgs_king.h line 28). -/
def HIGGS_COUPLING_BASE : ℚ := 1/8

/-- `FIELD_STABILITY_THRESHOLD = 1e-6` (src/higgs_king.h line 30). -/
def FIELD_STABILITY_THRESHOLD : ℚ := 1/1000000

/-- `TICKSTACK_SIZE` (src/fixed_memory_systems.h line 105): capacity of the
literal sequence of the delta topology engine. -/
def TICKSTACK_SIZE : ℕ := 50

/-- `TICKSTACK_EPSILON = 1e-10` (src/fixed_memory_systems.h line 108). -/
def TICKSTACK_EPSILON : ℚ := 1/10000000000

/-! ## Deferred reclamation stack (src/free_all.h) -/

/-- `FreeTick` (src/free_all.h lines 24-30).  The `next` link is implicit in
the list that holds the ticks. -/
structure FreeTick where
  ptr : ℕ
  size : ℕ
  ref_count : ℤ
  fuzzy_score : ℚ
deriving DecidableEq, Repr

/-- The global state of free_all.h: the `tick_stack` list and `tick_count`
(src/free_all.h lines 33-34), together with `released`, the observable
sequence of pointers handed to `free()` by cascades (release order). -/
structure FreeAllState where
  tick_stack : List FreeTick
  tick_count : ℕ
  released : List ℕ
deriving DecidableEq, Repr

/-- The empty initial state: both globals start at `NULL`/`0`. -/
def initFreeAll : FreeAllState := ⟨[], 0, []⟩

/-- `monitor_memory_pressure` (src/free_all.h lines 124-126): returns the
high value `0.9` once `tick_count` exceeds `MAX_TICK_STACK * 0.9 = 921.6`,
else `0.5`. -/
def monitor_memory_pressure (st : FreeAllState) : ℚ :=
  if (MAX_TICK_STACK : ℚ) * MEMORY_PRESSURE_THRESHOLD < (st.tick_count : ℚ) then 9/10 else 1/2

/-- `fuzzy_score_ptr` (src/free_all.h lines 110-119): fuzzy AND (minimum,
written with the source's conditionals) of the size factor, the reference
factor and the current memory pressure. -/
def fuzzy_score_ptr (st : FreeAllState) (size : ℕ) (ref_count : ℤ) : ℚ :=
  let size_factor : ℚ := if 1024 < size then 9/10 else (size : ℚ) / 1024
  let ref_factor : ℚ := if 1 < ref_count then 7/10 else 3/10
  let memory_pressure := monitor_memory_pressure st
  let score := if size_factor < ref_factor then size_factor else ref_factor
  if score < memory_pressure then score else memory_pressure

/-- The reclamation stack's confidence dampening (src/free_all.h lines
57-59): scores strictly below the threshold are multiplied by `0.8`. -/
def tickDampen (s : ℚ) : ℚ :=
  if s < FUZZY_CONFIDENCE_THRESHOLD then s * (8/10) else s

/-- The tail of the priority insertion of `tick_push` (src/free_all.h lines
66-71): walk while the next entry scores strictly above `t`, insert there. -/
def tickInsertAfter (t : FreeTick) : List FreeTick → List FreeTick
  | [] => [t]
  | n :: rest =>
    if t.fuzzy_score < n.fuzzy_score then n :: tickInsertAfter t rest else t :: n :: rest

/-- The priority insertion of `tick_push` (src/free_all.h lines 62-72):
prepend when the stack is empty or `t` scores strictly above the head. -/
def tickInsert (t : FreeTick) : List FreeTick → List FreeTick
  | [] => [t]
  | c :: rest =>
    if c.fuzzy_score < t.fuzzy_score then t :: c :: rest else c :: tickInsertAfter t rest

/-- `tick_push` (src/free_all.h lines 37-80): reject a null pointer or a
full stack, score the tick (fuzzy score then confidence dampening), insert
by descending score, bump the count.  The `malloc` of the node is assumed
to succeed; the inline assembly has no observable effect and is omitted. -/
def tick_push (st : FreeAllState) (ptr : ℕ) (size : ℕ) (ref_count : ℤ) : FreeAllState :=
  if ptr = 0 ∨ MAX_TICK_STACK ≤ st.tick_count then st
  else
    let score := tickDampen (fuzzy_score_ptr st size ref_count)
    let t : FreeTick := ⟨ptr, size, ref_count, score⟩
    { st with tick_stack := tickInsert t st.tick_stack, tick_count := st.tick_count + 1 }

/-- `is_valid_ptr` (src/free_all.h lines 208-210): simply a null check. -/
def is_valid_ptr (ptr : ℕ) : Bool := ptr ≠ 0

/-- The head-to-tail walk of `tick_cascade` (src/free_all.h lines 84-97):
the pointers actually handed to `free()`, in stack order.  An entry is
freed when its pointer is non-null and `is_valid_ptr` accepts it. -/
def cascadeWalk : List FreeTick → List ℕ
  | [] => []
  | c :: rest =>
    if c.ptr ≠ 0 then
      (if is_valid_ptr c.ptr then [c.ptr] else []) ++ cascadeWalk rest
    else cascadeWalk rest

/-- `tick_cascade` (src/free_all.h lines 83-105): free every valid entry,
then clear the stack and reset the count to zero. -/
def tick_cascade (st : FreeAllState) : FreeAllState :=
  { st with
    released := st.released ++ cascadeWalk st.tick_stack
    tick_stack := []
    tick_count := 0 }

/-- `free_all_tickstack` (src/free_all.h lines 186-194): cascade only when
the monitored pressure is strictly above `MEMORY_PRESSURE_THRESHOLD`,
otherwise defer and leave the stack untouched. -/
def free_all_tickstack (st : FreeAllState) : FreeAllState :=
  if MEMORY_PRESSURE_THRESHOLD < monitor_memory_pressure st then tick_cascade st else st

/-! ## Vector math and delta topology (spec-modelled)

`vector_magnitude`, `push_electron_free_literal` and
`compute_multivar_delta_topology` are declared in
src/fixed_memory_systems.h (lines 156-159) but their definitions are not
in the repository.  They are modelled from the spec (§4.1, §4.2). -/

/-- An 11-component coordinate vector of doubles; a `none` component is a
non-finite (NaN/Inf) double. -/
abbrev Coords := List (Option ℚ)

/-- Modelled from the spec (§4.1): the vector-math primitives whose
implementations are missing from src/.  The spec fixes `mag` to be the
Euclidean norm, which is irrational in general and therefore not a
function into `ℚ`; the development is parametric in `mag`, and theorems
that need them assume the spec's observable properties (nonnegativity,
non-finite exactly on non-finite input).  `harmonic` is the §4.2
harmonic-factor scaling ("derived from `magnitude` and a fixed ratio
constant") and `phase` the §4.2 aggregate scalar of the deltas; no claim
constrains their values. -/
structure VectorModel where
  mag : Coords → Option ℚ
  harmonic : ℚ → ℚ
  phase : Coords → ℚ

/-- Modelled from the spec (§4.1): per-axis `a[i] - b[i]` on doubles; a
non-finite operand makes the component non-finite. -/
def osub : Option ℚ → Option ℚ → Option ℚ
  | some a, some b => some (a - b)
  | _, _ => none

/-- Modelled from the spec (§4.1): `delta(a, b)` componentwise. -/
def vdelta (a b : Coords) : Coords := List.zipWith osub a b

/-- Modelled from the spec (§4.2): `directions[k] = deltas[k] / magnitude`,
defined as `0` when the magnitude is below `TICKSTACK_EPSILON`. -/
def vdirections (deltas : Coords) (m : ℚ) : Coords :=
  deltas.map (fun d => if m < TICKSTACK_EPSILON then some 0 else d.map (· / m))

/-- `MultivarDeltaTopology` (src/fixed_memory_systems.h lines 116-123),
the spec's `DeltaRecord` (§3); the source's extra `variable_count` field
is set by the missing implementation and unconstrained by the spec, so it
is omitted. -/
structure MultivarDeltaTopology where
  deltas : Coords
  magnitude : ℚ
  directions : Coords
  phase : ℚ
  harmonic_factor : ℚ
deriving DecidableEq, Repr

/-- Modelled from the spec (§4.2): the record of one consecutive pair of
literals, or `none` when an input vector contains NaN/Inf (the record is
skipped) or the magnitude is not finite. -/
def mkDeltaRecord (M : VectorModel) (prev cur : Coords) : Option MultivarDeltaTopology :=
  if none ∈ prev ∨ none ∈ cur then none
  else
    let deltas := vdelta cur prev
    match M.mag deltas with
    | none => none
    | some m => some ⟨deltas, m, vdirections deltas m, M.phase deltas, M.harmonic m⟩

/-- Modelled from the spec (§4.2): `recompute_topology()` produces one
record per consecutive pair of literals, skipping non-finite pairs, and
replaces the previous record list wholesale. -/
def compute_multivar_delta_topology (M : VectorModel) (lits : List Coords) :
    List MultivarDeltaTopology :=
  (lits.zip lits.tail).filterMap (fun pc => mkDeltaRecord M pc.1 pc.2)

/-- Modelled from the spec (§4.2): `push_literal` appends to the literal
sequence, capacity `TICKSTACK_SIZE` (50); overflow is a no-op (the oldest
literal is not evicted). -/
def push_literal (lits : List Coords) (v : Coords) : List Coords :=
  if TICKSTACK_SIZE ≤ lits.length then lits else lits ++ [v]

/-- The all-zero record standing for the uninitialised `delta_topology[0]`
slot the C reads when the topology is empty (the backing array is
zero-initialised at structure creation).  No claim depends on this case:
the interaction-step theorems either assume a real anchor record or stay
in the early-return branch. -/
def zeroRecord : MultivarDeltaTopology := ⟨[], 0, [], 0, 0⟩

/-! ## Higgs field registry (src/higgs_king.h) -/

/-- Errors of the spec's taxonomy (§7) as reported by the registry's
diagnostics. -/
inductive HiggsError where
  | invalidInput
  | capacityExceeded
  | insufficientData
deriving DecidableEq, Repr

/-- `HiggsFieldPoint` (src/higgs_king.h lines 33-40).  `insert_id` holds
the stored (already truncated) tag characters; the terminating NUL of the
C array is implicit in the list length. -/
structure HiggsFieldPoint where
  position : Coords
  energy : ℚ
  mass : ℚ
  fuzzy_score : ℚ
  is_interacting : Bool
  insert_id : List Char
deriving DecidableEq, Repr

/-- `HiggsField` (src/higgs_king.h lines 43-48).  `points` holds the live
points in array order, so `point_count` is `points.length`; `literals` is
the literal sequence of the owned `MultivarTickStack` (its delta records
are recomputed on demand by the interaction step, as in the source). -/
structure HiggsField where
  points : List HiggsFieldPoint
  literals : List Coords
  coupling_factor : ℚ
deriving DecidableEq, Repr

/-- `init_higgs_field` (src/higgs_king.h lines 72-92): no points, coupling
at `HIGGS_COUPLING_BASE`, a fresh empty tick stack. -/
def init_higgs_field : HiggsField := ⟨[], [], HIGGS_COUPLING_BASE⟩

/-- `monitor_field_stability` (src/higgs_king.h lines 143-160): `1.0` for
an empty registry, else `1.0` when the variance of the stored energies is
below `FIELD_STABILITY_THRESHOLD` and `0.5` otherwise. -/
def monitor_field_stability (f : HiggsField) : ℚ :=
  if f.points.length = 0 then 1
  else
    let n : ℚ := f.points.length
    let mean_energy := (f.points.map (·.energy)).sum / n
    let variance := (f.points.map (fun p =>
      let diff := p.energy - mean_energy
      diff * diff)).sum / n
    if variance < FIELD_STABILITY_THRESHOLD then 1 else 1/2

/-- The registry's confidence dampening (src/higgs_king.h line 139): the
score is kept only when strictly above the threshold, else multiplied
by `0.8`. -/
def higgsDampen (s : ℚ) : ℚ :=
  if FUZZY_CONFIDENCE_THRESHOLD < s then s else s * (8/10)

/-- `fuzzy_score_point` (src/higgs_king.h lines 129-140): fuzzy AND
(minimum, written with the source's conditionals) of the normalised
energy, the normalised mass and the current stability, then confidence
dampening. -/
def fuzzy_score_point (p : HiggsFieldPoint) (f : HiggsField) : ℚ :=
  let energy_factor := p.energy / (HIGGS_ENERGY_FACTOR * 11)
  let mass_factor := p.mass / 2
  let stability_factor := monitor_field_stability f
  let score := if energy_factor < mass_factor then energy_factor else mass_factor
  let score := if score < stability_factor then score else stability_factor
  higgsDampen score

/-- The insertion-sort placement of `add_higgs_point` (src/higgs_king.h
lines 121-125) on the reversed point list: the newcomer starts at the end
of the array and swaps leftwards while its score is strictly greater than
its left neighbour's. -/
def bubbleRev (x : HiggsFieldPoint) : List HiggsFieldPoint → List HiggsFieldPoint
  | [] => [x]
  | p :: rest =>
    if p.fuzzy_score < x.fuzzy_score then p :: bubbleRev x rest else x :: p :: rest

/-- The sort step of `add_higgs_point` in array order: append the newcomer
and bubble it towards the front past strictly lower scores. -/
def sortStep (pts : List HiggsFieldPoint) (x : HiggsFieldPoint) : List HiggsFieldPoint :=
  (bubbleRev x pts.reverse).reverse

/-- The point as first written into the array by `add_higgs_point`
(src/higgs_king.h lines 102-114): position copied, energy from the
magnitude, the tag truncated to 31 characters (`strncpy` plus the forced
terminator), the fuzzy score not yet computed. -/
def rawPoint (coords : Coords) (mass : ℚ) (cs : List Char) (mag : ℚ) : HiggsFieldPoint :=
  { position := coords
    energy := mag * HIGGS_ENERGY_FACTOR
    mass := mass
    fuzzy_score := 0
    is_interacting := true
    insert_id := cs.take 31 }

/-- The new point after line 112 of src/higgs_king.h: its fuzzy score is
computed against the registry that already counts the new point (the
count was incremented before `fuzzy_score_point` runs). -/
def scoredPoint (f : HiggsField) (coords : Coords) (mass : ℚ) (cs : List Char) (mag : ℚ) :
    HiggsFieldPoint :=
  let p0 := rawPoint coords mass cs mag
  { p0 with fuzzy_score := fuzzy_score_point p0 { f with points := f.points ++ [p0] } }

/-- `add_higgs_point` (src/higgs_king.h lines 95-126).  Guards follow the
source: a full registry or a `NULL` tag is rejected by the first `if`
(the capacity cause is labelled `capacityExceeded` per the spec taxonomy,
the null-argument cause `invalidInput`); a non-finite position magnitude
is rejected after the magnitude computation (`invalidInput`), undoing the
count bump.  On success the coordinates are pushed as a literal and the
new point placed by the insertion sort.  Null `field`/`coords` arguments
cannot arise in the embedding and the no-effect inline assembly is
omitted. -/
def add_higgs_point (M : VectorModel) (f : HiggsField) (coords : Coords) (mass : ℚ)
    (insert_id : Option (List Char)) : HiggsField × Option HiggsError :=
  if HIGGS_FIELD_SIZE ≤ f.points.length then (f, some .capacityExceeded)
  else if insert_id = none then (f, some .invalidInput)
  else
    match M.mag coords with
    | none => (f, some .invalidInput)
    | some mag =>
      let p := scoredPoint f coords mass (insert_id.getD []) mag
      ({ f with
          points := sortStep f.points p
          literals := push_literal f.literals coords }, none)

/-- `higgs_interaction` (src/higgs_king.h lines 163-188): reject fewer
than two points; set the coupling from the stability of the incoming
state; recompute the delta topology and read record 0 as the anchor; skip
points scoring below the confidence threshold and scale the others'
energy and mass by the anchor factors.  The source's NaN/Inf guard on the
anchor cannot fire here: the spec-modelled topology only stores finite
records.  `x_operator_multivar` has no implementation in src/ and the
spec gives the step no observable effect beyond energy and mass (§4.4),
so it is omitted. -/
def higgs_interaction (M : VectorModel) (f : HiggsField) : HiggsField × Option HiggsError :=
  if f.points.length < 2 then (f, some .insufficientData)
  else
    let coupling := HIGGS_COUPLING_BASE * monitor_field_stability f
    let topo := compute_multivar_delta_topology M f.literals
    let anchor := topo.headD zeroRecord
    let pts := f.points.map (fun p =>
      if p.fuzzy_score < FUZZY_CONFIDENCE_THRESHOLD then p
      else
        { p with
            energy := p.energy * (1 + coupling * anchor.magnitude)
            mass := p.mass * (1 + coupling * anchor.harmonic_factor) })
    ({ f with points := pts, coupling_factor := coupling }, none)

/-! ## Operation sequences -/

/-- One call of the registry's mutating interface. -/
inductive HOp where
  | add (coords : Coords) (mass : ℚ) (insert_id : Option (List Char))
  | interact
deriving DecidableEq

/-- Run one operation, keeping the state (diagnostics are reported, the
batch continues, §7). -/
def runOp (M : VectorModel) (f : HiggsField) : HOp → HiggsField
  | .add coords mass insert_id => (add_higgs_point M f coords mass insert_id).1
  | .interact => (higgs_interaction M f).1

/-- Run a sequence of operations from a fresh registry. -/
def run (M : VectorModel) (ops : List HOp) : HiggsField :=
  ops.foldl (runOp M) init_higgs_field

/-- One `insert` call's arguments. -/
structure AddInput where
  coords : Coords
  mass : ℚ
  insert_id : Option (List Char)
deriving DecidableEq

/-- Run a sequence of `insert` calls from a fresh registry. -/
def runAdds (M : VectorModel) (ins : List AddInput) : HiggsField :=
  run M (ins.map (fun a => .add a.coords a.mass a.insert_id))

/-! ## A concrete computable vector model for witnesses -/

/-- A concrete instantiation of the spec-modelled vector primitives used
by the closed witnesses: magnitude `0` on finite vectors, non-finite on
non-finite ones. -/
def magZero : Coords → Option ℚ := fun v => if none ∈ v then none else some 0

/-- The witness vector model. -/
def Mzero : VectorModel := ⟨magZero, fun m => m, fun _ => 0⟩

/-- The witness magnitude never returns a negative finite value. -/
theorem magZero_nonneg (v : Coords) (q : ℚ) (h : magZero v = some q) : 0 ≤ q := by
  unfold magZero at h
  by_cases hv : none ∈ v
  · simp [hv] at h
  · simp [hv] at h
    exact le_of_eq h

/-! ## Lemmas about the insertion-sort placement -/

/-- Elements of `bubbleRev x l` are `x` or elements of `l`. -/
theorem mem_bubbleRev {y x : HiggsFieldPoint} :
    ∀ {l : List HiggsFieldPoint}, y ∈ bubbleRev x l → y = x ∨ y ∈ l := by
  intro l
  induction l with
  | nil => intro h; simp [bubbleRev] at h; exact Or.inl h
  | cons p rest ih =>
    intro h
    unfold bubbleRev at h
    by_cases hc : p.fuzzy_score < x.fuzzy_score
    · rw [if_pos hc] at h
      rcases List.mem_cons.mp h with h | h
      · exact Or.inr (by simp [h])
      · rcases ih h with h | h
        · exact Or.inl h
        · exact Or.inr (List.mem_cons_of_mem p h)
    · rw [if_neg hc] at h
      rcases List.mem_cons.mp h with h | h
      · exact Or.inl h
      · exact Or.inr h

/-- `bubbleRev` adds exactly one element. -/
theorem bubbleRev_length (x : HiggsFieldPoint) :
    ∀ l : List HiggsFieldPoint, (bubbleRev x l).length = l.length + 1 := by
  intro l
  induction l with
  | nil => rfl
  | cons p rest ih =>
    unfold bubbleRev
    by_cases hc : p.fuzzy_score < x.fuzzy_score
    · simp [hc, ih]
    · simp [hc]

/-- `bubbleRev` inserts `x` at a single position, having crossed only
entries with scores strictly below its own. -/
theorem bubbleRev_split (x : HiggsFieldPoint) :
    ∀ l : List HiggsFieldPoint, ∃ l₁ l₂, l = l₁ ++ l₂ ∧
      bubbleRev x l = l₁ ++ x :: l₂ ∧ ∀ e ∈ l₁, e.fuzzy_score < x.fuzzy_score := by
  intro l
  induction l with
  | nil => exact ⟨[], [], rfl, rfl, by simp⟩
  | cons p rest ih =>
    by_cases hc : p.fuzzy_score < x.fuzzy_score
    · obtain ⟨l₁, l₂, hsplit, hres, hlt⟩ := ih
      refine ⟨p :: l₁, l₂, by simp [hsplit], ?_, ?_⟩
      · unfold bubbleRev
        rw [if_pos hc, hres]
        simp
      · intro e he
        rcases List.mem_cons.mp he with h | h
        · rw [h]; exact hc
        · exact hlt e h
    · refine ⟨[], p :: rest, rfl, ?_, by simp⟩
      unfold bubbleRev
      rw [if_neg hc]
      simp

/-- `bubbleRev` preserves non-decreasing score order (the reversed view of
the registry's non-increasing order). -/
theorem bubbleRev_pairwise (x : HiggsFieldPoint) :
    ∀ l : List HiggsFieldPoint,
      l.Pairwise (fun p q => p.fuzzy_score ≤ q.fuzzy_score) →
      (bubbleRev x l).Pairwise (fun p q => p.fuzzy_score ≤ q.fuzzy_score) := by
  intro l
  induction l with
  | nil => intro _; simp [bubbleRev]
  | cons p rest ih =>
    intro hl
    rcases List.pairwise_cons.mp hl with ⟨hhead, htail⟩
    unfold bubbleRev
    by_cases hc : p.fuzzy_score < x.fuzzy_score
    · rw [if_pos hc]
      refine List.pairwise_cons.mpr ⟨?_, ih htail⟩
      intro y hy
      rcases mem_bubbleRev hy with h | h
      · rw [h]; exact le_of_lt hc
      · exact hhead y h
    · rw [if_neg hc]
      refine List.pairwise_cons.mpr ⟨?_, hl⟩
      intro y hy
      rcases List.mem_cons.mp hy with h | h
      · rw [h]; exact not_lt.mp hc
      · exact le_trans (not_lt.mp hc) (hhead y h)

/-- The registry's sorted-order predicate: scores non-increasing from
index 0 upward. -/
def ScoresSorted (l : List HiggsFieldPoint) : Prop :=
  l.Pairwise (fun p q => q.fuzzy_score ≤ p.fuzzy_score)

/-- The sort step preserves the registry's non-increasing score order. -/
theorem sortStep_sorted {pts : List HiggsFieldPoint} (x : HiggsFieldPoint)
    (h : ScoresSorted pts) : ScoresSorted (sortStep pts x) := by
  unfold ScoresSorted at *
  unfold sortStep
  rw [List.pairwise_reverse]
  exact bubbleRev_pairwise x pts.reverse (List.pairwise_reverse.mpr h)

/-- The sort step inserts the new point at a single position; everything
after it scores strictly below it. -/
theorem sortStep_split (pts : List HiggsFieldPoint) (x : HiggsFieldPoint) :
    ∃ m₁ m₂, pts = m₁ ++ m₂ ∧ sortStep pts x = m₁ ++ x :: m₂ ∧
      ∀ e ∈ m₂, e.fuzzy_score < x.fuzzy_score := by
  obtain ⟨l₁, l₂, hsplit, hres, hlt⟩ := bubbleRev_split x pts.reverse
  refine ⟨l₂.reverse, l₁.reverse, ?_, ?_, ?_⟩
  · have := congrArg List.reverse hsplit
    simpa using this
  · unfold sortStep
    rw [hres]
    simp
  · intro e he
    exact hlt e (List.mem_reverse.mp he)

/-- The sort step adds exactly one element. -/
theorem sortStep_length (pts : List HiggsFieldPoint) (x : HiggsFieldPoint) :
    (sortStep pts x).length = pts.length + 1 := by
  unfold sortStep
  rw [List.length_reverse, bubbleRev_length, List.length_reverse]

/-- Membership in the sort step's result. -/
theorem mem_sortStep {y : HiggsFieldPoint} {pts : List HiggsFieldPoint} {x : HiggsFieldPoint}
    (h : y ∈ sortStep pts x) : y = x ∨ y ∈ pts := by
  unfold sortStep at h
  rcases mem_bubbleRev (List.mem_reverse.mp h) with h | h
  · exact Or.inl h
  · exact Or.inr (List.mem_reverse.mp h)

/-- Restricted to any fixed score value, the sort step appends the new
point (when it carries that score) after the previously stored points of
that score, which keep their relative order. -/
theorem sortStep_filter (pts : List HiggsFieldPoint) (x : HiggsFieldPoint) (c : ℚ) :
    (sortStep pts x).filter (fun p => p.fuzzy_score = c) =
      pts.filter (fun p => p.fuzzy_score = c) ++ (if x.fuzzy_score = c then [x] else []) := by
  obtain ⟨m₁, m₂, hsplit, hres, hlt⟩ := sortStep_split pts x
  rw [hres, hsplit]
  rw [List.filter_append, List.filter_append, List.filter_cons]
  by_cases hx : x.fuzzy_score = c
  · have hm₂ : m₂.filter (fun p => p.fuzzy_score = c) = [] := by
      rw [List.filter_eq_nil_iff]
      intro e he
      have := hlt e he
      simp only [decide_eq_true_eq]
      intro hce
      rw [hce, ← hx] at this
      exact lt_irrefl _ this
    simp [hx, hm₂]
  · simp [hx]

/-! ## Case equations for `add_higgs_point` -/

/-- A full registry rejects the insert without touching anything. -/
theorem add_at_capacity (M : VectorModel) (f : HiggsField) (coords : Coords) (mass : ℚ)
    (insert_id : Option (List Char)) (h : HIGGS_FIELD_SIZE ≤ f.points.length) :
    add_higgs_point M f coords mass insert_id = (f, some .capacityExceeded) := by
  unfold add_higgs_point
  rw [if_pos h]

/-- A `NULL` tag is rejected (below capacity) without touching anything. -/
theorem add_null_id (M : VectorModel) (f : HiggsField) (coords : Coords) (mass : ℚ)
    (h : ¬ HIGGS_FIELD_SIZE ≤ f.points.length) :
    add_higgs_point M f coords mass none = (f, some .invalidInput) := by
  unfold add_higgs_point
  rw [if_neg h]
  simp

/-- A non-finite position magnitude is rejected (below capacity, tag
present) without touching anything. -/
theorem add_bad_magnitude (M : VectorModel) (f : HiggsField) (coords : Coords) (mass : ℚ)
    (cs : List Char) (h : ¬ HIGGS_FIELD_SIZE ≤ f.points.length) (hm : M.mag coords = none) :
    add_higgs_point M f coords mass (some cs) = (f, some .invalidInput) := by
  unfold add_higgs_point
  rw [if_neg h]
  simp [hm]

/-- The successful insert: the scored point is sort-placed and the
coordinates pushed as a literal. -/
theorem add_success (M : VectorModel) (f : HiggsField) (coords : Coords) (mass : ℚ)
    (cs : List Char) (mag : ℚ) (h : ¬ HIGGS_FIELD_SIZE ≤ f.points.length)
    (hm : M.mag coords = some mag) :
    add_higgs_point M f coords mass (some cs) =
      ({ f with
          points := sortStep f.points (scoredPoint f coords mass cs mag)
          literals := push_literal f.literals coords }, none) := by
  unfold add_higgs_point
  rw [if_neg h]
  simp [hm]

/-- Whatever the arguments, an insert call either leaves the registry
unchanged (with a diagnostic) or sort-places one new point and pushes one
literal. -/
theorem add_cases (M : VectorModel) (f : HiggsField) (coords : Coords) (mass : ℚ)
    (insert_id : Option (List Char)) :
    (add_higgs_point M f coords mass insert_id).1 = f ∨
    ∃ p, (add_higgs_point M f coords mass insert_id).1 =
      { f with points := sortStep f.points p, literals := push_literal f.literals coords } := by
  by_cases hcap : HIGGS_FIELD_SIZE ≤ f.points.length
  · left; rw [add_at_capacity M f coords mass insert_id hcap]
  · cases insert_id with
    | none => left; rw [add_null_id M f coords mass hcap]
    | some cs =>
      cases hm : M.mag coords with
      | none => left; rw [add_bad_magnitude M f coords mass cs hcap hm]
      | some mag =>
        right
        exact ⟨scoredPoint f coords mass cs mag, by rw [add_success M f coords mass cs mag hcap hm]⟩

/-! ## Stability and score bounds -/

/-- The stability monitor is a two-level signal. -/
theorem monitor_field_stability_cases (f : HiggsField) :
    monitor_field_stability f = 1 ∨ monitor_field_stability f = 1/2 := by
  unfold monitor_field_stability
  by_cases h0 : f.points.length = 0
  · rw [if_pos h0]
    exact Or.inl rfl
  · rw [if_neg h0]
    exact ite_eq_or_eq _ 1 (1/2)

/-- The stability monitor is nonnegative. -/
theorem monitor_field_stability_nonneg (f : HiggsField) : 0 ≤ monitor_field_stability f := by
  rcases monitor_field_stability_cases f with h | h
  · rw [h]; norm_num
  · rw [h]; norm_num

/-- The stability monitor is at most one. -/
theorem monitor_field_stability_le_one (f : HiggsField) : monitor_field_stability f ≤ 1 := by
  rcases monitor_field_stability_cases f with h | h
  · rw [h]
  · rw [h]; norm_num

/-- Confidence dampening keeps scores in `[0,1]`. -/
theorem higgsDampen_mem_unit {s : ℚ} (h0 : 0 ≤ s) (h1 : s ≤ 1) :
    0 ≤ higgsDampen s ∧ higgsDampen s ≤ 1 := by
  unfold higgsDampen
  split_ifs with hc
  · exact ⟨h0, h1⟩
  · constructor
    · positivity
    · nlinarith

/-- The composite fuzzy score of a point with nonnegative energy and mass
lies in `[0,1]`. -/
theorem fuzzy_score_point_mem_unit (p : HiggsFieldPoint) (f : HiggsField)
    (he : 0 ≤ p.energy) (hm : 0 ≤ p.mass) :
    0 ≤ fuzzy_score_point p f ∧ fuzzy_score_point p f ≤ 1 := by
  unfold fuzzy_score_point
  have hEF : (0:ℚ) < HIGGS_ENERGY_FACTOR * 11 := by norm_num [HIGGS_ENERGY_FACTOR]
  have hef : 0 ≤ p.energy / (HIGGS_ENERGY_FACTOR * 11) := by positivity
  have hmf : 0 ≤ p.mass / 2 := by positivity
  have hstab0 := monitor_field_stability_nonneg f
  have hstab1 := monitor_field_stability_le_one f
  apply higgsDampen_mem_unit
  · split_ifs <;> assumption
  · split_ifs with h1 h2 h2
    · exact le_trans (le_of_lt h2) hstab1
    · exact hstab1
    · exact le_trans (le_of_lt h2) hstab1
    · exact hstab1

/-- Confidence dampening never pushes a score above one. -/
theorem higgsDampen_le_one {s : ℚ} (h1 : s ≤ 1) : higgsDampen s ≤ 1 := by
  unfold higgsDampen
  split_ifs with hc
  · exact h1
  · nlinarith [not_lt.mp hc]

/-- Without any assumption on the inputs, the composite fuzzy score is at
most one (the fuzzy AND is capped by the stability signal). -/
theorem fuzzy_score_point_le_one (p : HiggsFieldPoint) (f : HiggsField) :
    fuzzy_score_point p f ≤ 1 := by
  unfold fuzzy_score_point
  have hstab1 := monitor_field_stability_le_one f
  apply higgsDampen_le_one
  split_ifs with h1 h2 h2
  · exact le_trans (le_of_lt h2) hstab1
  · exact hstab1
  · exact le_trans (le_of_lt h2) hstab1
  · exact hstab1

/-! ## Run lemmas -/

/-- Appending one operation to a run applies it to the final state. -/
theorem run_append (M : VectorModel) (ops : List HOp) (op : HOp) :
    run M (ops ++ [op]) = runOp M (run M ops) op := by
  unfold run
  rw [List.foldl_append]
  rfl

/-- `runAdds` in terms of `run`. -/
theorem runAdds_append (M : VectorModel) (ins : List AddInput) (a : AddInput) :
    runAdds M (ins ++ [a]) =
      (add_higgs_point M (runAdds M ins) a.coords a.mass a.insert_id).1 := by
  unfold runAdds
  rw [List.map_append, List.map_singleton, run_append]
  rfl

/-- Invariants established at the fresh registry and preserved by every
operation hold after every run. -/
theorem run_invariant (M : VectorModel) (Inv : HiggsField → Prop)
    (hinit : Inv init_higgs_field)
    (hstep : ∀ f op, Inv f → Inv (runOp M f op)) :
    ∀ ops, Inv (run M ops) := by
  have general : ∀ (ops : List HOp) (f : HiggsField), Inv f → Inv (ops.foldl (runOp M) f) := by
    intro ops
    induction ops with
    | nil => intro f hf; exact hf
    | cons op rest ih => intro f hf; exact ih (runOp M f op) (hstep f op hf)
  intro ops
  exact general ops init_higgs_field hinit

/-- The interaction step never changes the stored fuzzy scores. -/
theorem higgs_interaction_fuzzy (M : VectorModel) (f : HiggsField) :
    (higgs_interaction M f).1.points.map (·.fuzzy_score) = f.points.map (·.fuzzy_score) := by
  unfold higgs_interaction
  split_ifs with h
  · rfl
  · simp only [List.map_map]
    apply List.map_congr_left
    intro p _
    simp only [Function.comp_apply]
    split_ifs <;> rfl

/-- The interaction step never changes the point count. -/
theorem higgs_interaction_length (M : VectorModel) (f : HiggsField) :
    (higgs_interaction M f).1.points.length = f.points.length := by
  unfold higgs_interaction
  split_ifs with h
  · rfl
  · simp

/-- The interaction step never touches the literal sequence. -/
theorem higgs_interaction_literals (M : VectorModel) (f : HiggsField) :
    (higgs_interaction M f).1.literals = f.literals := by
  unfold higgs_interaction
  split_ifs with h <;> rfl

/-- The interaction step preserves the registry's sort order (scores are
never recomputed). -/
theorem higgs_interaction_sorted (M : VectorModel) (f : HiggsField)
    (h : ScoresSorted f.points) : ScoresSorted (higgs_interaction M f).1.points := by
  unfold ScoresSorted at *
  have hmap := higgs_interaction_fuzzy M f
  have h1 : (f.points.map (·.fuzzy_score)).Pairwise (fun a b => b ≤ a) :=
    List.pairwise_map.mpr h
  rw [← hmap] at h1
  exact List.pairwise_map.mp h1

/-- Every reachable registry is sorted by non-increasing fuzzy score. -/
theorem run_sorted (M : VectorModel) (ops : List HOp) : ScoresSorted (run M ops).points := by
  apply run_invariant M (fun f => ScoresSorted f.points)
  · exact List.Pairwise.nil
  · intro f op hf
    cases op with
    | add coords mass insert_id =>
      rcases add_cases M f coords mass insert_id with h | ⟨p, h⟩
      · simp only [runOp]; rw [h]; exact hf
      · simp only [runOp]; rw [h]; exact sortStep_sorted p hf
    | interact => exact higgs_interaction_sorted M f hf

/-- An insert call never pushes the registry beyond its capacity. -/
theorem add_length_le (M : VectorModel) (f : HiggsField) (coords : Coords) (mass : ℚ)
    (insert_id : Option (List Char)) (h : f.points.length ≤ HIGGS_FIELD_SIZE) :
    (add_higgs_point M f coords mass insert_id).1.points.length ≤ HIGGS_FIELD_SIZE := by
  by_cases hcap : HIGGS_FIELD_SIZE ≤ f.points.length
  · rw [add_at_capacity M f coords mass insert_id hcap]; exact h
  · rcases add_cases M f coords mass insert_id with hc | ⟨p, hc⟩
    · rw [hc]; exact h
    · rw [hc]
      simp only [sortStep_length]
      omega

/-- The point count of every reachable registry stays within capacity. -/
theorem run_length_le (M : VectorModel) (ops : List HOp) :
    (run M ops).points.length ≤ HIGGS_FIELD_SIZE := by
  apply run_invariant M (fun f => f.points.length ≤ HIGGS_FIELD_SIZE)
  · norm_num [init_higgs_field]
  · intro f op hf
    cases op with
    | add coords mass insert_id => exact add_length_le M f coords mass insert_id hf
    | interact => unfold runOp; rw [higgs_interaction_length]; exact hf

/-! ## Concrete fixtures for witnesses and counterexamples -/

/-- The all-zero 11-vector. -/
def v0 : Coords := List.replicate 11 (some 0)

/-- An 11-vector with a non-finite component. -/
def vBad : Coords := List.replicate 11 none

/-- The witness magnitude is finite on the all-zero vector. -/
theorem magZero_v0 : Mzero.mag v0 = some 0 := by
  simp [Mzero, magZero, v0, List.mem_replicate]

/-- The witness magnitude is non-finite on the bad vector. -/
theorem magZero_vBad : Mzero.mag vBad = none := by
  simp [Mzero, magZero, vBad, List.mem_replicate]

/-! ## C8 — the shared dampening rule -/

/-- C8 counterexample: at a combined score of exactly `0.7` the registry
dampens (its guard keeps only scores strictly above the threshold) while
the reclamation stack does not (its guard dampens only scores strictly
below), so the two post-processing rules are not equal as functions. -/
theorem c8_dampen_counterexample :
    higgsDampen (7/10) ≠ tickDampen (7/10) := by
  unfold higgsDampen tickDampen FUZZY_CONFIDENCE_THRESHOLD
  rw [if_neg (lt_irrefl _), if_neg (lt_irrefl _)]
  norm_num

/-- C8 (amended): the Registry's and the Reclamation Stack's confidence
dampening agree at every combined score other than exactly `0.7`: both
multiply by `0.8` strictly below the threshold and pass the score through
strictly above it; they differ only at the threshold itself. -/
theorem c8_dampen_agree_off_threshold (s : ℚ) (h : s ≠ 7/10) :
    higgsDampen s = tickDampen s := by
  unfold higgsDampen tickDampen FUZZY_CONFIDENCE_THRESHOLD
  rcases lt_trichotomy s (7/10) with hlt | heq | hgt
  · rw [if_neg (by linarith), if_pos hlt]
  · exact absurd heq h
  · rw [if_pos hgt, if_neg (by linarith)]

/-- C8 witness: the two dampening rules agree at `0.5`. -/
theorem c8_dampen_agree_witness : higgsDampen (1/2) = tickDampen (1/2) :=
  c8_dampen_agree_off_threshold (1/2) (by norm_num)

/-! ## C2 — sort invariant with stable ties -/

/-- C2: after every sequence of insert calls the stored fuzzy scores are
non-increasing from index 0 upward, and restricted to any fixed priority
value each further insert call only appends (at most one point) after the
previously stored points of that priority, so later-inserted points never
move before earlier points of equal priority. -/
theorem c2_sort_invariant (M : VectorModel) (ins : List AddInput) :
    ScoresSorted (runAdds M ins).points ∧
    ∀ (a : AddInput) (c : ℚ), ∃ t,
      (runAdds M (ins ++ [a])).points.filter (fun p => p.fuzzy_score = c) =
        (runAdds M ins).points.filter (fun p => p.fuzzy_score = c) ++ t ∧
      t.length ≤ 1 := by
  constructor
  · exact run_sorted M _
  · intro a c
    rw [runAdds_append]
    rcases add_cases M (runAdds M ins) a.coords a.mass a.insert_id with h | ⟨p, h⟩
    · exact ⟨[], by rw [h, List.append_nil], by norm_num⟩
    · refine ⟨if p.fuzzy_score = c then [p] else [], ?_, ?_⟩
      · rw [h]
        exact sortStep_filter (runAdds M ins).points p c
      · split_ifs <;> norm_num

/-! ## C5 — capacity enforcement -/

/-- An insert argument triple that passes every validity guard of
`add_higgs_point` (finite magnitude, non-`NULL` tag). -/
def ValidInput (M : VectorModel) (a : AddInput) : Prop :=
  M.mag a.coords ≠ none ∧ a.insert_id ≠ none

/-- With only valid inputs, the registry count is the number of inserts
capped at the capacity. -/
theorem runAdds_count_min (M : VectorModel) (ins : List AddInput)
    (hval : ∀ a ∈ ins, ValidInput M a) :
    (runAdds M ins).points.length = min ins.length HIGGS_FIELD_SIZE := by
  induction ins using List.reverseRecOn with
  | nil => simp [runAdds, run, init_higgs_field]
  | append_singleton ins a ih =>
    have hins : ∀ b ∈ ins, ValidInput M b := fun b hb => hval b (List.mem_append_left _ hb)
    have ha : ValidInput M a := hval a (List.mem_append_right _ (List.mem_singleton_self a))
    have hlen := ih hins
    rw [runAdds_append]
    by_cases hcap : HIGGS_FIELD_SIZE ≤ (runAdds M ins).points.length
    · rw [add_at_capacity _ _ _ _ _ hcap]
      simp only [List.length_append, List.length_singleton]
      omega
    · obtain ⟨hmag, hid⟩ := ha
      obtain ⟨cs, hcs⟩ := Option.ne_none_iff_exists'.mp hid
      obtain ⟨mag, hm⟩ := Option.ne_none_iff_exists'.mp hmag
      rw [hcs]
      rw [add_success M _ a.coords a.mass cs mag hcap hm]
      simp only [sortStep_length, List.length_append, List.length_singleton]
      omega

/-- C5: the registry count never exceeds the capacity of 100 after any
sequence of insert calls; with valid inputs the count is exactly the
number of inserts capped at 100 (so 101 inserts into an empty registry
leave the count at 100); and any insert attempted at capacity is rejected
with `CapacityExceeded`, leaving the registry — in particular every stored
point — unchanged. -/
theorem c5_capacity_enforced (M : VectorModel) (ins : List AddInput) :
    (runAdds M ins).points.length ≤ HIGGS_FIELD_SIZE ∧
    ((∀ a ∈ ins, ValidInput M a) →
      (runAdds M ins).points.length = min ins.length HIGGS_FIELD_SIZE) ∧
    ∀ (coords : Coords) (mass : ℚ) (iid : Option (List Char)),
      HIGGS_FIELD_SIZE ≤ (runAdds M ins).points.length →
      add_higgs_point M (runAdds M ins) coords mass iid =
        (runAdds M ins, some .capacityExceeded) := by
  refine ⟨run_length_le M _, runAdds_count_min M ins, ?_⟩
  intro coords mass iid hcap
  exact add_at_capacity M _ coords mass iid hcap

/-- C5 witness: one valid insert yields a count of `min 1 100 = 1`. -/
theorem c5_capacity_enforced_witness :
    (runAdds Mzero [⟨v0, 1, some ['a']⟩]).points.length = min 1 HIGGS_FIELD_SIZE :=
  (c5_capacity_enforced Mzero [⟨v0, 1, some ['a']⟩]).2.1 (by
    intro a ha
    rw [List.mem_singleton] at ha
    subst ha
    exact ⟨by rw [magZero_v0]; simp, by simp⟩)

/-! ## C9 — insufficient literals make the step a no-op -/

/-- Reachable registries hold exactly one literal per stored point, capped
at the topology buffer's capacity of 50. -/
theorem run_literal_count (M : VectorModel) (ops : List HOp) :
    (run M ops).literals.length = min (run M ops).points.length TICKSTACK_SIZE := by
  apply run_invariant M (fun f => f.literals.length = min f.points.length TICKSTACK_SIZE)
  · simp [init_higgs_field]
  · intro f op hf
    cases op with
    | add coords mass insert_id =>
      simp only [runOp]
      by_cases hcap : HIGGS_FIELD_SIZE ≤ f.points.length
      · rw [add_at_capacity M f coords mass insert_id hcap]; exact hf
      · cases insert_id with
        | none => rw [add_null_id M f coords mass hcap]; exact hf
        | some cs =>
          cases hm : M.mag coords with
          | none => rw [add_bad_magnitude M f coords mass cs hcap hm]; exact hf
          | some mag =>
            rw [add_success M f coords mass cs mag hcap hm]
            simp only [sortStep_length]
            unfold push_literal
            split_ifs with hfull
            · omega
            · simp only [List.length_append, List.length_singleton]
              omega
    | interact =>
      simp only [runOp]
      rw [higgs_interaction_length, higgs_interaction_literals]
      exact hf

/-- C9: on every reachable registry holding fewer than two literals, the
interaction step reports `InsufficientData` and changes nothing — neither
the points (energies, masses, order) nor the count nor anything else. -/
theorem c9_insufficient_literals_noop (M : VectorModel) (ops : List HOp)
    (h : (run M ops).literals.length < 2) :
    higgs_interaction M (run M ops) = (run M ops, some .insufficientData) := by
  have hc := run_literal_count M ops
  have hp : (run M ops).points.length < 2 := by
    have hT : (2:ℕ) ≤ TICKSTACK_SIZE := by norm_num [TICKSTACK_SIZE]
    omega
  unfold higgs_interaction
  rw [if_pos hp]

/-- C9 witness: a fresh registry has no literals, and the step on it is a
no-op reporting `InsufficientData`. -/
theorem c9_insufficient_literals_noop_witness :
    higgs_interaction Mzero (run Mzero []) = (run Mzero [], some .insufficientData) :=
  c9_insufficient_literals_noop Mzero [] (by simp [run, init_higgs_field])

/-! ## C10 — tag truncation -/

/-- C10: every successful insert stores as tag exactly the first 31
characters of the supplied tag: a longer tag is accepted and silently
truncated to 31 characters (it does not cause a rejection — the insert
succeeds and places exactly one new point), while a tag of at most 31
characters is stored verbatim. -/
theorem c10_tag_truncated (M : VectorModel) (f : HiggsField) (coords : Coords) (mass : ℚ)
    (cs : List Char) (mag : ℚ) (hcap : f.points.length < HIGGS_FIELD_SIZE)
    (hm : M.mag coords = some mag) :
    (add_higgs_point M f coords mass (some cs)).2 = none ∧
    (scoredPoint f coords mass cs mag).insert_id = cs.take 31 ∧
    (cs.length ≤ 31 → (scoredPoint f coords mass cs mag).insert_id = cs) ∧
    ∃ l₁ l₂, f.points = l₁ ++ l₂ ∧
      (add_higgs_point M f coords mass (some cs)).1.points =
        l₁ ++ scoredPoint f coords mass cs mag :: l₂ := by
  have hncap : ¬ HIGGS_FIELD_SIZE ≤ f.points.length := not_le.mpr hcap
  rw [add_success M f coords mass cs mag hncap hm]
  refine ⟨rfl, rfl, ?_, ?_⟩
  · intro hlen
    exact List.take_of_length_le hlen
  · obtain ⟨m₁, m₂, hsplit, hres, _⟩ := sortStep_split f.points (scoredPoint f coords mass cs mag)
    exact ⟨m₁, m₂, hsplit, hres⟩

/-- C10 witness: inserting a 40-character tag into a fresh registry
succeeds and stores its first 31 characters. -/
theorem c10_tag_truncated_witness :
    (add_higgs_point Mzero init_higgs_field v0 1 (some (List.replicate 40 'x'))).2 = none ∧
    (scoredPoint init_higgs_field v0 1 (List.replicate 40 'x') 0).insert_id =
      (List.replicate 40 'x').take 31 ∧
    ((List.replicate 40 'x').length ≤ 31 →
      (scoredPoint init_higgs_field v0 1 (List.replicate 40 'x') 0).insert_id =
        List.replicate 40 'x') ∧
    ∃ l₁ l₂, init_higgs_field.points = l₁ ++ l₂ ∧
      (add_higgs_point Mzero init_higgs_field v0 1 (some (List.replicate 40 'x'))).1.points =
        l₁ ++ scoredPoint init_higgs_field v0 1 (List.replicate 40 'x') 0 :: l₂ :=
  c10_tag_truncated Mzero init_higgs_field v0 1 (List.replicate 40 'x') 0
    (by norm_num [init_higgs_field, HIGGS_FIELD_SIZE]) magZero_v0

/-! ## C6 — rejection conditions of the insert -/

/-- C6 counterexample: an insert whose tag is the empty string (a valid,
non-`NULL` pointer to `""`) is NOT rejected — it succeeds and stores a
point, because the source only checks the tag pointer for `NULL`. -/
theorem c6_empty_tag_accepted :
    (add_higgs_point Mzero init_higgs_field v0 1 (some [])).2 = none ∧
    (add_higgs_point Mzero init_higgs_field v0 1 (some [])).1.points.length = 1 := by
  rw [add_success Mzero init_higgs_field v0 1 [] 0
    (by norm_num [init_higgs_field, HIGGS_FIELD_SIZE]) magZero_v0]
  refine ⟨rfl, ?_⟩
  rw [sortStep_length]
  rfl

/-- C6 (amended): an insert whose tag is `NULL`, or whose position vector
has non-finite (NaN/Inf) magnitude, is rejected with `InvalidInput`
provided the registry is below capacity, and the rejection leaves the
registry's observable state — count and every stored point — unchanged.
An empty but non-`NULL` tag is not rejected. -/
theorem c6_invalid_input_rejected (M : VectorModel) (f : HiggsField) (coords : Coords)
    (mass : ℚ) (iid : Option (List Char)) (hcap : f.points.length < HIGGS_FIELD_SIZE)
    (h : iid = none ∨ M.mag coords = none) :
    add_higgs_point M f coords mass iid = (f, some .invalidInput) := by
  have hncap : ¬ HIGGS_FIELD_SIZE ≤ f.points.length := not_le.mpr hcap
  rcases h with h | h
  · subst h
    exact add_null_id M f coords mass hncap
  · cases iid with
    | none => exact add_null_id M f coords mass hncap
    | some cs => exact add_bad_magnitude M f coords mass cs hncap h

/-- C6 witness: an insert with a non-finite position magnitude into a
fresh registry is rejected with `InvalidInput` and changes nothing. -/
theorem c6_invalid_input_rejected_witness :
    add_higgs_point Mzero init_higgs_field vBad 1 (some ['a']) =
      (init_higgs_field, some .invalidInput) :=
  c6_invalid_input_rejected Mzero init_higgs_field vBad 1 (some ['a'])
    (by norm_num [init_higgs_field, HIGGS_FIELD_SIZE]) (Or.inr magZero_vBad)

/-! ## C3 — interaction scaling by the anchor record -/

/-- C3: on a registry with an anchor record available (at least two
literals) and at least two points, one step sets the coupling to
`BaseCoupling * stability()`, reports no error, and maps every point
scoring at or above the confidence threshold to the exact multiplicative
update by the anchor's magnitude (energy) and harmonic factor (mass),
leaving every point below the threshold untouched. -/
theorem c3_interaction_scaling (M : VectorModel) (f : HiggsField) (a : MultivarDeltaTopology)
    (h2 : 2 ≤ f.points.length)
    (ha : (compute_multivar_delta_topology M f.literals).head? = some a) :
    (higgs_interaction M f).1.coupling_factor =
      HIGGS_COUPLING_BASE * monitor_field_stability f ∧
    (higgs_interaction M f).2 = none ∧
    (higgs_interaction M f).1.points = f.points.map (fun p =>
      if FUZZY_CONFIDENCE_THRESHOLD ≤ p.fuzzy_score then
        { p with
            energy := p.energy *
              (1 + HIGGS_COUPLING_BASE * monitor_field_stability f * a.magnitude)
            mass := p.mass *
              (1 + HIGGS_COUPLING_BASE * monitor_field_stability f * a.harmonic_factor) }
      else p) := by
  have hlt : ¬ f.points.length < 2 := not_lt.mpr h2
  have hanchor : (compute_multivar_delta_topology M f.literals).headD zeroRecord = a := by
    rw [List.headD_eq_head? _ _, ha]
    rfl
  have hstep : higgs_interaction M f =
      ({ f with
          points := f.points.map (fun p =>
            if p.fuzzy_score < FUZZY_CONFIDENCE_THRESHOLD then p
            else
              { p with
                  energy := p.energy *
                    (1 + HIGGS_COUPLING_BASE * monitor_field_stability f * a.magnitude)
                  mass := p.mass *
                    (1 + HIGGS_COUPLING_BASE * monitor_field_stability f * a.harmonic_factor) })
          coupling_factor := HIGGS_COUPLING_BASE * monitor_field_stability f }, none) := by
    unfold higgs_interaction
    rw [if_neg hlt]
    simp only [hanchor]
  rw [hstep]
  refine ⟨rfl, rfl, ?_⟩
  apply List.map_congr_left
  intro p _
  by_cases hs : p.fuzzy_score < FUZZY_CONFIDENCE_THRESHOLD
  · rw [if_pos hs, if_neg (not_le.mpr hs)]
  · rw [if_neg hs, if_pos (not_lt.mp hs)]

/-- A high-priority and a low-priority point for the C3 witness. -/
def pHi : HiggsFieldPoint := ⟨v0, 1, 1, 1, true, ['a']⟩

/-- A below-threshold point for the C3 witness. -/
def pLo : HiggsFieldPoint := ⟨v0, 0, 0, 0, true, ['b']⟩

/-- A registry with two points and two pushed literals. -/
def fC3 : HiggsField := ⟨[pHi, pLo], [v0, v0], 1/8⟩

/-- The anchor record the witness topology produces. -/
def recC3 : MultivarDeltaTopology :=
  ⟨vdelta v0 v0, 0, vdirections (vdelta v0 v0) 0, 0, 0⟩

/-- The witness topology's first record. -/
theorem topo_fC3 : (compute_multivar_delta_topology Mzero fC3.literals).head? = some recC3 := by
  have hnm : ¬ ((none ∈ v0) ∨ (none ∈ v0)) := by
    simp [v0, List.mem_replicate]
  have hmd : magZero (vdelta v0 v0) = some 0 := by
    show magZero (List.replicate 11 (some (0 - 0))) = some 0
    simp [magZero, List.mem_replicate]
  show ((fC3.literals.zip fC3.literals.tail).filterMap
    (fun pc => mkDeltaRecord Mzero pc.1 pc.2)).head? = some recC3
  have hrec : mkDeltaRecord Mzero v0 v0 = some recC3 := by
    unfold mkDeltaRecord
    rw [if_neg hnm]
    show (match Mzero.mag (vdelta v0 v0) with
      | none => none
      | some m => some ⟨vdelta v0 v0, m, vdirections (vdelta v0 v0) m,
          Mzero.phase (vdelta v0 v0), Mzero.harmonic m⟩) = some recC3
    rw [show Mzero.mag (vdelta v0 v0) = some 0 from hmd]
    rfl
  show ((([v0, v0] : List Coords).zip [v0]).filterMap
    (fun pc => mkDeltaRecord Mzero pc.1 pc.2)).head? = some recC3
  simp only [List.zip_cons_cons, List.zip_nil_right, List.filterMap_cons, hrec]
  rfl

/-- C3 witness: the interaction step on the two-point registry applies the
anchor scaling exactly as stated. -/
theorem c3_interaction_scaling_witness :
    (higgs_interaction Mzero fC3).1.coupling_factor =
      HIGGS_COUPLING_BASE * monitor_field_stability fC3 ∧
    (higgs_interaction Mzero fC3).2 = none ∧
    (higgs_interaction Mzero fC3).1.points = fC3.points.map (fun p =>
      if FUZZY_CONFIDENCE_THRESHOLD ≤ p.fuzzy_score then
        { p with
            energy := p.energy *
              (1 + HIGGS_COUPLING_BASE * monitor_field_stability fC3 * recC3.magnitude)
            mass := p.mass *
              (1 + HIGGS_COUPLING_BASE * monitor_field_stability fC3 * recC3.harmonic_factor) }
      else p) :=
  c3_interaction_scaling Mzero fC3 recC3 (by norm_num [fC3]) topo_fC3

/-! ## C7 — the stability signal -/

/-- The spec's mean of the stored energies (§4.3). -/
def energyMean (f : HiggsField) : ℚ := (f.points.map (·.energy)).sum / f.points.length

/-- The spec's variance of the stored energies (§4.3). -/
def energyVariance (f : HiggsField) : ℚ :=
  (f.points.map (fun p =>
    let diff := p.energy - energyMean f
    diff * diff)).sum / f.points.length

/-- Three points with equal energies. -/
def fEq : HiggsField :=
  ⟨[⟨[], 1, 1, 0, true, []⟩, ⟨[], 1, 1, 0, true, []⟩, ⟨[], 1, 1, 0, true, []⟩], [], 1/8⟩

/-- The same registry with one outlier energy. -/
def fOut : HiggsField :=
  ⟨[⟨[], 1, 1, 0, true, []⟩, ⟨[], 1, 1, 0, true, []⟩, ⟨[], 2, 1, 0, true, []⟩], [], 1/8⟩

/-- C7: on every registry state the stability monitor returns exactly
`1.0` or `0.5`, and it returns `1.0` precisely when the variance of the
stored energies is below the fixed tolerance; concretely, equal energies
give `1.0` and one outlier energy drives the signal to `0.5`. -/
theorem c7_stability_two_level :
    (∀ f : HiggsField,
      (monitor_field_stability f = 1 ∨ monitor_field_stability f = 1/2) ∧
      (monitor_field_stability f = 1 ↔ energyVariance f < FIELD_STABILITY_THRESHOLD)) ∧
    monitor_field_stability fEq = 1 ∧
    monitor_field_stability fOut = 1/2 := by
  refine ⟨?_, ?_, ?_⟩
  · intro f
    refine ⟨monitor_field_stability_cases f, ?_⟩
    unfold monitor_field_stability
    by_cases h0 : f.points.length = 0
    · rw [if_pos h0]
      have hnil : f.points = [] := List.length_eq_zero.mp h0
      unfold energyVariance
      rw [hnil]
      norm_num [FIELD_STABILITY_THRESHOLD]
    · rw [if_neg h0]
      show (if energyVariance f < FIELD_STABILITY_THRESHOLD then (1:ℚ) else 1/2) = 1 ↔
        energyVariance f < FIELD_STABILITY_THRESHOLD
      split_ifs with hv
      · simp [hv]
      · constructor
        · intro h1
          norm_num at h1
        · intro h1
          exact absurd h1 hv
  · unfold monitor_field_stability fEq
    norm_num [FIELD_STABILITY_THRESHOLD]
  · unfold monitor_field_stability fOut
    norm_num [FIELD_STABILITY_THRESHOLD]

/-! ## C4 — priority range -/

/-- Every point stored after an interaction step carries the fuzzy score
of some previously stored point. -/
theorem higgs_interaction_mem_fuzzy (M : VectorModel) (f : HiggsField) (p : HiggsFieldPoint)
    (hp : p ∈ (higgs_interaction M f).1.points) :
    ∃ x ∈ f.points, p.fuzzy_score = x.fuzzy_score := by
  unfold higgs_interaction at hp
  split_ifs at hp with h
  · exact ⟨p, hp, rfl⟩
  · simp only [List.mem_map] at hp
    obtain ⟨x, hx, hpx⟩ := hp
    refine ⟨x, hx, ?_⟩
    rw [← hpx]
    split_ifs <;> rfl

/-- C4 counterexample: inserting a point with negative mass stores a
negative priority, outside `[0,1]` (the fuzzy AND takes the negative
normalised mass and the dampening keeps it negative). -/
theorem c4_negative_mass_counterexample :
    ∃ p ∈ (runAdds Mzero [⟨v0, -1, some ['a']⟩]).points, p.fuzzy_score < 0 := by
  have h1 : runAdds Mzero [⟨v0, -1, some ['a']⟩] =
      (add_higgs_point Mzero init_higgs_field v0 (-1) (some ['a'])).1 := rfl
  rw [h1, add_success Mzero init_higgs_field v0 (-1) ['a'] 0
    (by norm_num [init_higgs_field, HIGGS_FIELD_SIZE]) magZero_v0]
  refine ⟨scoredPoint init_higgs_field v0 (-1) ['a'] 0, ?_, ?_⟩
  · show scoredPoint init_higgs_field v0 (-1) ['a'] 0 ∈
      sortStep init_higgs_field.points (scoredPoint init_higgs_field v0 (-1) ['a'] 0)
    show scoredPoint init_higgs_field v0 (-1) ['a'] 0 ∈
      [scoredPoint init_higgs_field v0 (-1) ['a'] 0]
    exact List.mem_singleton_self _
  · show fuzzy_score_point (rawPoint v0 (-1) ['a'] 0)
      { init_higgs_field with points := init_higgs_field.points ++ [rawPoint v0 (-1) ['a'] 0] } < 0
    have hstab : monitor_field_stability
        { init_higgs_field with
          points := init_higgs_field.points ++ [rawPoint v0 (-1) ['a'] 0] } = 1 := by
      unfold monitor_field_stability init_higgs_field rawPoint
      norm_num [FIELD_STABILITY_THRESHOLD]
    unfold fuzzy_score_point
    rw [hstab]
    unfold rawPoint higgsDampen
    norm_num [HIGGS_ENERGY_FACTOR, FUZZY_CONFIDENCE_THRESHOLD]

/-- The operations of a run that keep the priority invariant: inserts with
nonnegative mass (interaction steps never recompute priorities). -/
def MassNonneg : HOp → Prop
  | .add _ m _ => 0 ≤ m
  | .interact => True

/-- C4 (amended): provided the spec-modelled magnitude is nonnegative (as
the Euclidean norm is) and every insert supplies a nonnegative mass, the
priority of every stored point lies in `[0,1]` after any sequence of
insert and step operations.  Without the mass restriction only the upper
bound holds (see the counterexample). -/
theorem c4_priority_in_unit_interval (M : VectorModel) (ops : List HOp)
    (hM : ∀ v q, M.mag v = some q → 0 ≤ q)
    (hops : ∀ op ∈ ops, MassNonneg op) :
    ∀ p ∈ (run M ops).points, 0 ≤ p.fuzzy_score ∧ p.fuzzy_score ≤ 1 := by
  suffices h : ∀ (ops : List HOp) (f : HiggsField), (∀ op ∈ ops, MassNonneg op) →
      (∀ p ∈ f.points, 0 ≤ p.fuzzy_score ∧ p.fuzzy_score ≤ 1) →
      ∀ p ∈ (ops.foldl (runOp M) f).points, 0 ≤ p.fuzzy_score ∧ p.fuzzy_score ≤ 1 by
    exact h ops init_higgs_field hops (by simp [init_higgs_field])
  intro ops
  induction ops with
  | nil => intro f _ hf; exact hf
  | cons op rest ih =>
    intro f hops1 hf
    simp only [List.foldl_cons]
    apply ih
    · intro o ho
      exact hops1 o (List.mem_cons_of_mem op ho)
    · have hop := hops1 op (List.mem_cons_self op rest)
      cases op with
      | interact =>
        intro p hp
        simp only [runOp] at hp
        obtain ⟨x, hx, hfs⟩ := higgs_interaction_mem_fuzzy M f p hp
        rw [hfs]
        exact hf x hx
      | add coords mass insert_id =>
        intro p hp
        simp only [runOp] at hp
        by_cases hcap : HIGGS_FIELD_SIZE ≤ f.points.length
        · rw [add_at_capacity M f coords mass insert_id hcap] at hp
          exact hf p hp
        · cases insert_id with
          | none =>
            rw [add_null_id M f coords mass hcap] at hp
            exact hf p hp
          | some cs =>
            cases hm : M.mag coords with
            | none =>
              rw [add_bad_magnitude M f coords mass cs hcap hm] at hp
              exact hf p hp
            | some mag =>
              rw [add_success M f coords mass cs mag hcap hm] at hp
              rcases mem_sortStep hp with hep | hep
              · subst hep
                have hmag : 0 ≤ mag := hM coords mag hm
                have hen : (0:ℚ) ≤ mag * HIGGS_ENERGY_FACTOR := by
                  have hEF : (0:ℚ) ≤ HIGGS_ENERGY_FACTOR := by norm_num [HIGGS_ENERGY_FACTOR]
                  exact mul_nonneg hmag hEF
                have hmass : (0:ℚ) ≤ mass := hop
                exact fuzzy_score_point_mem_unit (rawPoint coords mass cs mag) _ hen hmass
              · exact hf p hep

/-- C4 witness: the point stored by one nonnegative-mass insert carries a
priority in `[0,1]`. -/
theorem c4_priority_in_unit_interval_witness :
    0 ≤ (scoredPoint init_higgs_field v0 1 ['a'] 0).fuzzy_score ∧
    (scoredPoint init_higgs_field v0 1 ['a'] 0).fuzzy_score ≤ 1 :=
  c4_priority_in_unit_interval Mzero [HOp.add v0 1 (some ['a'])] magZero_nonneg
    (by
      intro op hop
      rw [List.mem_singleton] at hop
      subst hop
      show (0:ℚ) ≤ 1
      norm_num)
    (scoredPoint init_higgs_field v0 1 ['a'] 0)
    (by
      have h2 : run Mzero [HOp.add v0 1 (some ['a'])] =
          (add_higgs_point Mzero init_higgs_field v0 1 (some ['a'])).1 := rfl
      have h1 : (run Mzero [HOp.add v0 1 (some ['a'])]).points =
          [scoredPoint init_higgs_field v0 1 ['a'] 0] := by
        rw [h2, add_success Mzero init_higgs_field v0 1 ['a'] 0
          (by norm_num [init_higgs_field, HIGGS_FIELD_SIZE]) magZero_v0]
        rfl
      rw [h1]
      exact List.mem_singleton_self _)

/-! ## C1 — the pressure gate of the reclamation cascade -/

/-- A cascade that starts at an entry with a live handle frees at least
that handle. -/
theorem cascadeWalk_cons_ne_nil (t : FreeTick) (rest : List FreeTick) (h : t.ptr ≠ 0) :
    cascadeWalk (t :: rest) ≠ [] := by
  unfold cascadeWalk
  rw [if_pos h, if_pos (by simp [is_valid_ptr, h])]
  simp

/-- A pending tick holding a live (non-null) handle. -/
def tickBig : FreeTick := ⟨1, 8, 1, 1/2⟩

/-- A reclamation stack holding 1000 pending handles: its monitored
pressure is the high value `0.9`, at the `MEMORY_PRESSURE_THRESHOLD`. -/
def stBig : FreeAllState := ⟨List.replicate 1000 tickBig, 1000, []⟩

/-- C1 (code divergence): with 1000 pending handles the monitored pressure
reaches the threshold `0.9` — the claim's premise — and the stack holds
live handles, yet `free_all_tickstack` defers: it changes nothing, and a
second call still releases nothing, because its guard demands pressure
strictly above `0.9` while `monitor_memory_pressure` never returns more
than `0.9`.  The inner `tick_cascade`, which the gate can never reach,
would have released the handles and reset the count as the claim states. -/
theorem c1_cascade_never_fires :
    MEMORY_PRESSURE_THRESHOLD ≤ monitor_memory_pressure stBig ∧
    stBig.tick_count = 1000 ∧
    stBig.tick_stack ≠ [] ∧
    (∀ t ∈ stBig.tick_stack, is_valid_ptr t.ptr = true) ∧
    free_all_tickstack stBig = stBig ∧
    (free_all_tickstack (free_all_tickstack stBig)).released = [] ∧
    (tick_cascade stBig).tick_count = 0 ∧
    (tick_cascade stBig).released ≠ [] := by
  have hmp : monitor_memory_pressure stBig = 9/10 := by
    unfold monitor_memory_pressure stBig
    rw [if_pos (by norm_num [MAX_TICK_STACK, MEMORY_PRESSURE_THRESHOLD])]
  have hdefer : free_all_tickstack stBig = stBig := by
    unfold free_all_tickstack
    rw [hmp, if_neg (by norm_num [MEMORY_PRESSURE_THRESHOLD])]
  refine ⟨by rw [hmp]; norm_num [MEMORY_PRESSURE_THRESHOLD], rfl, ?_, ?_, hdefer, ?_, rfl, ?_⟩
  · show List.replicate 1000 tickBig ≠ []
    intro hfalse
    have hlen := congrArg List.length hfalse
    simp only [List.length_replicate, List.length_nil] at hlen
    exact absurd hlen (by norm_num)
  · intro t ht
    have heq : t = tickBig := List.eq_of_mem_replicate ht
    subst heq
    rfl
  · rw [hdefer, hdefer]
    rfl
  · show ([] : List ℕ) ++ cascadeWalk (List.replicate 1000 tickBig) ≠ []
    rw [List.nil_append, show (1000:ℕ) = 999 + 1 from rfl, List.replicate_succ]
    exact cascadeWalk_cons_ne_nil tickBig _ (by norm_num [tickBig])

end PseudoJava
